import Mathlib

/-!
# Verification of the nclaude message-room core

A shallow embedding of the nclaude repository's message model, file/SQLite
storage backends, Room operations, and real-time hub routing, with theorems
settling the specification's testable properties against the code.

Strings are modelled as `List Char` (`Str`); the Python regexes used by the
code are modelled as deterministic scanners (each regex involved has the shape
"greedy character-class runs separated by literal delimiters", with each class
disjoint from its following delimiter, so greedy matching without backtracking
is exact).
-/

namespace NClaude

/-- Character strings, as lists of characters. -/
abbrev Str := List Char

/-- Python `\w` (word character), ASCII fragment: letters, digits, underscore. -/
def isWordChar (c : Char) : Bool :=
  c.isAlpha || c.isDigit || c = '_'

/-- Character class `[\w/.,@-]` of the mention grammar used by
`FileStorage._extract_recipient` and `parse_recipient`. -/
def isMentionChar (c : Char) : Bool :=
  isWordChar c || c = '/' || c = '.' || c = ',' || c = '@' || c = '-'

/-- Python `\s` whitespace (ASCII fragment). -/
def isSpaceChar (c : Char) : Bool :=
  c = ' ' || c = '\t' || c = '\n' || c = '\r' || c = '\x0b' || c = '\x0c'

/-- Character class `[\w-]` of the hub's `@mention` regex (`hub.py`). -/
def isHubMentionChar (c : Char) : Bool :=
  isWordChar c || c = '-'

/-- Character class `[\w/.-]` of `Room.read`'s `for_me` regex. -/
def isForMeChar (c : Char) : Bool :=
  isWordChar c || c = '/' || c = '.' || c = '-'

/-- Split a string on `'\n'`; always returns at least one (possibly empty)
piece, like Python `s.split("\n")`. -/
def splitNL : Str → List Str
  | [] => [[]]
  | c :: rest =>
    if c = '\n' then [] :: splitNL rest
    else
      match splitNL rest with
      | [] => [[c]]
      | l :: ls => (c :: l) :: ls

/-- Join strings with `'\n'` separators; inverse of `splitNL`. -/
def joinNL : List Str → Str
  | [] => []
  | [l] => l
  | l :: ls => l ++ '\n' :: joinNL ls

theorem splitNL_ne_nil (s : Str) : splitNL s ≠ [] := by
  induction s with
  | nil => simp [splitNL]
  | cons c rest ih =>
    simp only [splitNL]
    split
    · simp
    · cases h : splitNL rest with
      | nil => simp
      | cons l ls => simp

theorem joinNL_splitNL (s : Str) : joinNL (splitNL s) = s := by
  induction s with
  | nil => rfl
  | cons c rest ih =>
    simp only [splitNL]
    by_cases h : c = '\n'
    · rw [if_pos h, h]
      cases hs : splitNL rest with
      | nil => exact absurd hs (splitNL_ne_nil rest)
      | cons l ls =>
        rw [hs] at ih
        simp only [joinNL, List.nil_append]
        rw [ih]
    · rw [if_neg h]
      cases hs : splitNL rest with
      | nil => exact absurd hs (splitNL_ne_nil rest)
      | cons l ls =>
        rw [hs] at ih
        cases ls with
        | nil => simpa [joinNL] using ih
        | cons l' ls' => simpa [joinNL] using ih

/-- Splitting a newline-free string yields the single piece. -/
theorem splitNL_no_nl (s : Str) (h : '\n' ∉ s) : splitNL s = [s] := by
  induction s with
  | nil => rfl
  | cons c rest ih =>
    simp only [List.mem_cons, not_or] at h
    simp only [splitNL]
    rw [if_neg (fun hc => h.1 hc.symm), ih h.2]

/-- Splitting at an explicit newline after a newline-free prefix. -/
theorem splitNL_append_nl (a b : Str) (h : '\n' ∉ a) :
    splitNL (a ++ '\n' :: b) = a :: splitNL b := by
  induction a with
  | nil => simp [splitNL]
  | cons c rest ih =>
    simp only [List.mem_cons, not_or] at h
    have ih' := ih h.2
    simp only [List.cons_append, splitNL]
    rw [if_neg (fun hc => h.1 hc.symm)]
    simp only [List.append_eq]
    rw [ih']

/-- Splitting distributes over an explicit newline. -/
theorem splitNL_append (a b : Str) :
    splitNL (a ++ '\n' :: b) = splitNL a ++ splitNL b := by
  induction a with
  | nil => simp [splitNL]
  | cons c rest ih =>
    by_cases h : c = '\n'
    · subst h
      simp only [List.cons_append, splitNL, if_pos rfl, List.append_eq]
      rw [ih]
      rfl
    · simp only [List.cons_append, splitNL, if_neg h, List.append_eq]
      rw [ih]
      cases hs : splitNL rest with
      | nil => exact absurd hs (splitNL_ne_nil rest)
      | cons l ls => simp

/-- Prepending a newline-free string merges into the first split piece. -/
theorem splitNL_append_no_nl (a b : Str) (h : '\n' ∉ a) :
    splitNL (a ++ b) = (a ++ (splitNL b).head (splitNL_ne_nil b)) ::
      (splitNL b).tail := by
  induction a with
  | nil => simp
  | cons c rest ih =>
    simp only [List.mem_cons, not_or] at h
    simp only [List.cons_append, splitNL, List.append_eq]
    rw [if_neg (fun hc => h.1 hc.symm), ih h.2]

/-! ## takeWhile / dropWhile helpers

The regex scanners below are all of the form "greedy run of a character class
up to a delimiter not in the class"; these two lemmas evaluate them. -/

theorem takeWhile_all_stop {α : Type*} (p : α → Bool) (l1 : List α) (c : α) (l2 : List α)
    (h1 : ∀ x ∈ l1, p x = true) (h2 : p c = false) :
    (l1 ++ c :: l2).takeWhile p = l1 := by
  induction l1 with
  | nil => simp [List.takeWhile, h2]
  | cons a l ih =>
    simp only [List.cons_append, List.takeWhile]
    rw [h1 a (by simp)]
    simp only [List.cons.injEq, true_and]
    exact ih (fun x hx => h1 x (by simp [hx]))

theorem dropWhile_all_stop {α : Type*} (p : α → Bool) (l1 : List α) (c : α) (l2 : List α)
    (h1 : ∀ x ∈ l1, p x = true) (h2 : p c = false) :
    (l1 ++ c :: l2).dropWhile p = c :: l2 := by
  induction l1 with
  | nil => simp [List.dropWhile, h2]
  | cons a l ih =>
    simp only [List.cons_append, List.dropWhile]
    rw [h1 a (by simp)]
    exact ih (fun x hx => h1 x (by simp [hx]))

theorem takeWhile_all {α : Type*} (p : α → Bool) (l : List α)
    (h : ∀ x ∈ l, p x = true) : l.takeWhile p = l := by
  induction l with
  | nil => rfl
  | cons a t ih =>
    simp only [List.takeWhile]
    rw [h a (by simp)]
    simp only [List.cons.injEq, true_and]
    exact ih (fun x hx => h x (by simp [hx]))

/-! ## Message model (`storage/base.py`)

`Message` without the `room` field (not encoded in a log line; the claims
exempt `id`/`room`).  The timestamp is an opaque string here: the code fills
it from the wall clock, which our embedding threads in explicitly. -/

structure Msg where
  id : Nat
  sessionId : Str
  msgType : Str
  content : Str
  timestamp : Str
  recipient : Option Str
  deriving Repr, DecidableEq

/-- Python truthiness of the optional `recipient` field (`if self.recipient:`):
`None` and the empty string are falsy. -/
def recipTruthy : Option Str → Bool
  | none => false
  | some r => !r.isEmpty

/-- `Message.to_log_line` (`storage/base.py`): prefix `@recipient ` onto the
content when a recipient is set, then emit the multi-line delimited block if
the content contains a newline, else the single-line bracketed form (the
`[TYPE]` field is omitted exactly when the type is `MSG`). -/
def toLogLine (m : Msg) : Str :=
  let content := if recipTruthy m.recipient
    then '@' :: m.recipient.getD [] ++ ' ' :: m.content
    else m.content
  if '\n' ∈ content then
    "<<<[".data ++ m.timestamp ++ "][".data ++ m.sessionId ++ "][".data
      ++ m.msgType ++ "]>>>".data ++ '\n' :: content ++ '\n' :: "<<<END>>>".data
  else
    if m.msgType ≠ "MSG".data then
      '[' :: m.timestamp ++ "] [".data ++ m.sessionId ++ "] [".data
        ++ m.msgType ++ "] ".data ++ content
    else
      '[' :: m.timestamp ++ "] [".data ++ m.sessionId ++ "] ".data ++ content

/-- `FileStorage._extract_recipient`: Python `re.match(r'^@([\w/.,@-]+)\s+', content)`.
The mention class and `\s` are disjoint, so greedy matching is: `'@'`, a
nonempty run of mention characters, then a nonempty run of whitespace; the
cleaned content is everything after the whitespace run. -/
def extractRecipient (content : Str) : Str × Option Str :=
  match content with
  | [] => (content, none)
  | c0 :: rest =>
    if c0 = '@' then
      if (rest.takeWhile isMentionChar).isEmpty then (content, none)
      else if ((rest.dropWhile isMentionChar).takeWhile isSpaceChar).isEmpty then
        (content, none)
      else ((rest.dropWhile isMentionChar).dropWhile isSpaceChar,
            some (rest.takeWhile isMentionChar))
    else (content, none)

/-- Read one `[^\]]+` group: a nonempty run of non-`']'` characters followed by
the closing `']'`; returns the group and the remainder after the `']'`. -/
def readGroup (s : Str) : Option (Str × Str) :=
  let g := s.takeWhile (· ≠ ']')
  if g.isEmpty then none
  else
    match s.dropWhile (· ≠ ']') with
    | c :: rest => if c = ']' then some (g, rest) else none
    | [] => none

/-- Consume one expected literal character. -/
def expectChar (c : Char) : Str → Option Str
  | x :: rest => if x = c then some rest else none
  | [] => none

/-- Consume an expected literal string prefix. -/
def expectStr (pre : Str) (s : Str) : Option Str :=
  match pre with
  | [] => some s
  | c :: pre' =>
    match s with
    | x :: rest => if x = c then expectStr pre' rest else none
    | [] => none

/-- The trailing `(.+)` group of an `re.match`: a nonempty greedy run of
non-newline characters (whatever follows a `'\n'` is simply not consumed,
since `re.match` only requires a prefix match). -/
def readContentGroup (s : Str) : Option Str :=
  let c := s.takeWhile (· ≠ '\n')
  if c.isEmpty then none else some c

/-- `re.match(r"\[([^\]]+)\] \[([^\]]+)\] \[([^\]]+)\] (.+)", line)`:
the three-bracket-group single-line pattern. -/
def parseSingle3 (line : Str) : Option (Str × Str × Str × Str) := do
  let r1 ← expectChar '[' line
  let (ts, r2) ← readGroup r1
  let r3 ← expectStr " [".data r2
  let (sid, r4) ← readGroup r3
  let r5 ← expectStr " [".data r4
  let (ty, r6) ← readGroup r5
  let r7 ← expectChar ' ' r6
  let content ← readContentGroup r7
  return (ts, sid, ty, content)

/-- `re.match(r"\[([^\]]+)\] \[([^\]]+)\] (.+)", line)`: the two-bracket-group
single-line pattern (implicit type `MSG`). -/
def parseSingle2 (line : Str) : Option (Str × Str × Str) := do
  let r1 ← expectChar '[' line
  let (ts, r2) ← readGroup r1
  let r3 ← expectStr " [".data r2
  let (sid, r4) ← readGroup r3
  let r5 ← expectChar ' ' r4
  let content ← readContentGroup r5
  return (ts, sid, content)

/-- `re.match(r"<<<\[([^\]]+)\]\[([^\]]+)\]\[([^\]]+)\]>>>", line)`: the
multi-line header pattern (a prefix match: trailing characters are allowed). -/
def parseMultiHeader (line : Str) : Option (Str × Str × Str) := do
  let r1 ← expectStr "<<<[".data line
  let (ts, r2) ← readGroup r1
  let r3 ← expectChar '[' r2
  let (sid, r4) ← readGroup r3
  let r5 ← expectChar '[' r4
  let (ty, r6) ← readGroup r5
  let _ ← expectStr ">>>".data r6
  return (ts, sid, ty)

/-- `FileStorage._parse_line`.  `lineNum` is the 1-based line number used as
the message id; `rest` is the list of lines following this one in the file
(the code passes `all_lines`/`line_idx` and only reads `all_lines[line_idx+1:]`). -/
def parseLine (line : Str) (lineNum : Nat) (rest : List Str) : Option Msg :=
  if "<<<[".data.isPrefixOf line then
    match parseMultiHeader line with
    | some (ts, sid, ty) =>
      let contentLines := rest.takeWhile (· ≠ "<<<END>>>".data)
      let content := joinNL contentLines
      let (content', recip) := extractRecipient content
      some ⟨lineNum, sid, ty, content', ts, recip⟩
    | none =>
      -- falls through to the `line.startswith("[")` check, which fails
      none
  else if "[".data.isPrefixOf line then
    match parseSingle3 line with
    | some (ts, sid, ty, content) =>
      let (content', recip) := extractRecipient content
      some ⟨lineNum, sid, ty, content', ts, recip⟩
    | none =>
      match parseSingle2 line with
      | some (ts, sid, content) =>
        let (content', recip) := extractRecipient content
        some ⟨lineNum, sid, "MSG".data, content', ts, recip⟩
      | none => none
  else none

/-- Parse the log-line block produced by `toLogLine`: split into lines and run
`FileStorage._parse_line` on the first line with the remaining lines as
context (this is how `read_messages` consumes the file). -/
def parseLogBlock (s : Str) : Option Msg :=
  match splitNL s with
  | [] => none
  | l0 :: ls => parseLine l0 1 ls

/-! ## Evaluation lemmas for the scanners -/

theorem isEmpty_false_of_ne {α : Type*} {l : List α} (h : l ≠ []) :
    l.isEmpty = false := by
  cases l with
  | nil => exact absurd rfl h
  | cons a t => rfl

theorem isMentionChar_not_space {c : Char} (h : isMentionChar c = true) :
    isSpaceChar c = false := by
  by_contra hs
  rw [Bool.not_eq_false] at hs
  have hd : c = ' ' ∨ c = '\t' ∨ c = '\n' ∨ c = '\x0d' ∨ c = '\x0b' ∨ c = '\x0c' := by
    simpa [isSpaceChar, Bool.or_eq_true, decide_eq_true_eq, or_assoc] using hs
  rcases hd with rfl | rfl | rfl | rfl | rfl | rfl <;> exact absurd h (by decide)

theorem isMentionChar_ne_rbracket {c : Char} (h : isMentionChar c = true) :
    c ≠ ']' := by
  rintro rfl
  exact absurd h (by decide)

theorem isMentionChar_ne_nl {c : Char} (h : isMentionChar c = true) :
    c ≠ '\n' := by
  rintro rfl
  exact absurd h (by decide)

/-- `_extract_recipient` on content carrying an `@recipient ` prefix recovers
the recipient and the original content. -/
theorem extractRecipient_prefixed (r c : Str) (hr : r ≠ [])
    (hrc : ∀ x ∈ r, isMentionChar x = true)
    (hc : ∀ x, c.head? = some x → isSpaceChar x = false) :
    extractRecipient ('@' :: r ++ ' ' :: c) = (c, some r) := by
  show extractRecipient ('@' :: (r ++ ' ' :: c)) = (c, some r)
  simp only [extractRecipient, if_pos rfl]
  rw [takeWhile_all_stop isMentionChar r ' ' c hrc (by decide),
      dropWhile_all_stop isMentionChar r ' ' c hrc (by decide)]
  rw [isEmpty_false_of_ne hr]
  simp only [Bool.false_eq_true, if_false]
  have hws : (' ' :: c).takeWhile isSpaceChar = ' ' :: c.takeWhile isSpaceChar := by
    simp [List.takeWhile, isSpaceChar]
  rw [hws]
  simp only [List.isEmpty_cons, Bool.false_eq_true, if_false]
  have hdw : (' ' :: c).dropWhile isSpaceChar = c := by
    simp only [List.dropWhile, show isSpaceChar ' ' = true by decide]
    cases c with
    | nil => rfl
    | cons x xs =>
      simp only [List.dropWhile]
      rw [hc x rfl]
  rw [hdw]
  simp

/-- When `_extract_recipient` finds no match it returns the content unchanged. -/
theorem extractRecipient_none (c : Str) (h : (extractRecipient c).2 = none) :
    extractRecipient c = (c, none) := by
  cases c with
  | nil => rfl
  | cons c0 rest =>
    simp only [extractRecipient] at h ⊢
    by_cases h0 : c0 = '@'
    · rw [if_pos h0] at h ⊢
      by_cases h1 : (rest.takeWhile isMentionChar).isEmpty
      · rw [if_pos h1]
      · rw [if_neg h1] at h ⊢
        by_cases h2 : ((rest.dropWhile isMentionChar).takeWhile isSpaceChar).isEmpty
        · rw [if_pos h2]
        · rw [if_neg h2] at h
          simp at h
    · rw [if_neg h0]

theorem readGroup_eval (g rest : Str) (hg : g ≠ [])
    (hgc : ∀ x ∈ g, x ≠ ']') :
    readGroup (g ++ ']' :: rest) = some (g, rest) := by
  simp only [readGroup]
  rw [takeWhile_all_stop _ g ']' rest (fun x hx => by simpa using hgc x hx) (by decide),
      dropWhile_all_stop _ g ']' rest (fun x hx => by simpa using hgc x hx) (by decide)]
  rw [isEmpty_false_of_ne hg]
  simp

theorem expectStr_eval (pre rest : Str) : expectStr pre (pre ++ rest) = some rest := by
  induction pre with
  | nil => rfl
  | cons c pre' ih => simp [expectStr, ih]

theorem readContentGroup_eval (c : Str) (hne : c ≠ []) (hnl : '\n' ∉ c) :
    readContentGroup c = some c := by
  simp only [readContentGroup]
  rw [takeWhile_all _ c (fun x hx => by
    simp only [decide_eq_true_eq]
    rintro rfl
    exact hnl hx)]
  rw [isEmpty_false_of_ne hne]
  simp

/-- A well-formed bracket-group string: nonempty and free of `']'`/`'\n'`. -/
def GroupOK (s : Str) : Prop := s ≠ [] ∧ ∀ c ∈ s, c ≠ ']' ∧ c ≠ '\n'

instance (s : Str) : Decidable (GroupOK s) := by unfold GroupOK; infer_instance

theorem parseSingle3_eval (ts sid ty c : Str)
    (hts : GroupOK ts) (hsid : GroupOK sid) (hty : GroupOK ty)
    (hcne : c ≠ []) (hcnl : '\n' ∉ c) :
    parseSingle3 ('[' :: (ts ++ ']' :: ' ' :: '[' ::
      (sid ++ ']' :: ' ' :: '[' :: (ty ++ ']' :: ' ' :: c)))) =
      some (ts, sid, ty, c) := by
  simp only [parseSingle3, expectChar, if_pos, bind, Option.bind]
  rw [readGroup_eval ts _ hts.1 (fun x hx => (hts.2 x hx).1)]
  simp only [expectStr, if_pos]
  rw [readGroup_eval sid _ hsid.1 (fun x hx => (hsid.2 x hx).1)]
  simp only [expectStr, if_pos]
  rw [readGroup_eval ty _ hty.1 (fun x hx => (hty.2 x hx).1)]
  simp only [expectChar, if_pos]
  rw [readContentGroup_eval c hcne hcnl]
  rfl

theorem parseSingle2_eval (ts sid c : Str)
    (hts : GroupOK ts) (hsid : GroupOK sid)
    (hcne : c ≠ []) (hcnl : '\n' ∉ c) :
    parseSingle2 ('[' :: (ts ++ ']' :: ' ' :: '[' :: (sid ++ ']' :: ' ' :: c))) =
      some (ts, sid, c) := by
  simp only [parseSingle2, expectChar, if_pos, bind, Option.bind]
  rw [readGroup_eval ts _ hts.1 (fun x hx => (hts.2 x hx).1)]
  simp only [expectStr, if_pos]
  rw [readGroup_eval sid _ hsid.1 (fun x hx => (hsid.2 x hx).1)]
  simp only [expectChar, if_pos]
  rw [readContentGroup_eval c hcne hcnl]
  rfl

/-- The three-group pattern fails on a two-group line whose content does not
start with `'['` — exactly the situation of a `MSG` line. -/
theorem parseSingle3_fail2 (ts sid c : Str)
    (hts : GroupOK ts) (hsid : GroupOK sid) (hc0 : c.head? ≠ some '[') :
    parseSingle3 ('[' :: (ts ++ ']' :: ' ' :: '[' :: (sid ++ ']' :: ' ' :: c))) =
      none := by
  simp only [parseSingle3, expectChar, if_pos, bind, Option.bind]
  rw [readGroup_eval ts _ hts.1 (fun x hx => (hts.2 x hx).1)]
  simp only [expectStr, if_pos]
  rw [readGroup_eval sid _ hsid.1 (fun x hx => (hsid.2 x hx).1)]
  cases c with
  | nil => simp [expectStr]
  | cons x xs =>
    simp only [List.head?] at hc0
    have hx : x ≠ '[' := fun hh => hc0 (by rw [hh])
    simp [expectStr, hx]

theorem parseMultiHeader_eval (ts sid ty : Str)
    (hts : GroupOK ts) (hsid : GroupOK sid) (hty : GroupOK ty) :
    parseMultiHeader ("<<<[".data ++ (ts ++ ']' :: '[' ::
      (sid ++ ']' :: '[' :: (ty ++ ']' :: ">>>".data)))) =
      some (ts, sid, ty) := by
  have h0 := expectStr_eval "<<<[".data
    (ts ++ ']' :: '[' :: (sid ++ ']' :: '[' :: (ty ++ ']' :: ">>>".data)))
  have h1 := readGroup_eval ts ('[' :: (sid ++ ']' :: '[' :: (ty ++ ']' :: ">>>".data)))
    hts.1 (fun x hx => (hts.2 x hx).1)
  have h2 := readGroup_eval sid ('[' :: (ty ++ ']' :: ">>>".data))
    hsid.1 (fun x hx => (hsid.2 x hx).1)
  have h3 := readGroup_eval ty (">>>".data) hty.1 (fun x hx => (hty.2 x hx).1)
  simp only [parseMultiHeader, bind, Option.bind, h0, h1, h2, h3, expectChar, if_pos]
  simp [expectStr]

theorem isPrefixOf_append_self (p x : Str) : p.isPrefixOf (p ++ x) = true := by
  induction p with
  | nil => simp [List.isPrefixOf]
  | cons c rest ih => simp [List.isPrefixOf, ih]

/-! ## Shape lemmas: `parseLogBlock` on each `toLogLine` branch -/

/-- `_parse_line` on a three-bracket single-line record, any line number and
following lines. -/
theorem parseLine_single3 (ts sid ty c : Str)
    (hts : GroupOK ts) (hsid : GroupOK sid) (hty : GroupOK ty)
    (hcne : c ≠ []) (hcnl : '\n' ∉ c) (n : Nat) (rest : List Str) :
    parseLine ('[' :: (ts ++ ']' :: ' ' :: '[' ::
        (sid ++ ']' :: ' ' :: '[' :: (ty ++ ']' :: ' ' :: c)))) n rest =
      some ⟨n, sid, ty, (extractRecipient c).1, ts, (extractRecipient c).2⟩ := by
  have hp1 : ("<<<[".data.isPrefixOf ('[' :: (ts ++ ']' :: ' ' :: '[' ::
      (sid ++ ']' :: ' ' :: '[' :: (ty ++ ']' :: ' ' :: c)))) : Bool) = false := rfl
  have hp2 : ("[".data.isPrefixOf ('[' :: (ts ++ ']' :: ' ' :: '[' ::
      (sid ++ ']' :: ' ' :: '[' :: (ty ++ ']' :: ' ' :: c)))) : Bool) = true := by
    simp [List.isPrefixOf]
  have hp3 := parseSingle3_eval ts sid ty c hts hsid hty hcne hcnl
  simp only [parseLine, hp1, hp2, Bool.false_eq_true, if_false, if_true, hp3]

/-- `_parse_line` on a two-bracket single-line record (`msg_type = MSG`),
provided the (possibly `@`-prefixed) content does not start with `'['` —
otherwise the three-bracket pattern would fire first. -/
theorem parseLine_single2 (ts sid c : Str)
    (hts : GroupOK ts) (hsid : GroupOK sid)
    (hcne : c ≠ []) (hcnl : '\n' ∉ c) (hc0 : c.head? ≠ some '[') (n : Nat)
    (rest : List Str) :
    parseLine ('[' :: (ts ++ ']' :: ' ' :: '[' :: (sid ++ ']' :: ' ' :: c))) n rest =
      some ⟨n, sid, "MSG".data, (extractRecipient c).1, ts, (extractRecipient c).2⟩ := by
  have hp1 : ("<<<[".data.isPrefixOf ('[' :: (ts ++ ']' :: ' ' :: '[' ::
      (sid ++ ']' :: ' ' :: c))) : Bool) = false := rfl
  have hp2 : ("[".data.isPrefixOf ('[' :: (ts ++ ']' :: ' ' :: '[' ::
      (sid ++ ']' :: ' ' :: c))) : Bool) = true := by
    simp [List.isPrefixOf]
  have hp3 := parseSingle3_fail2 ts sid c hts hsid hc0
  have hp4 := parseSingle2_eval ts sid c hts hsid hcne hcnl
  simp only [parseLine, hp1, hp2, Bool.false_eq_true, if_false, if_true, hp3, hp4]

/-- The single-line three-bracket form of `to_log_line` has no newline. -/
theorem single3_no_nl (ts sid ty c : Str)
    (hts : GroupOK ts) (hsid : GroupOK sid) (hty : GroupOK ty) (hcnl : '\n' ∉ c) :
    '\n' ∉ ('[' :: (ts ++ ']' :: ' ' :: '[' ::
      (sid ++ ']' :: ' ' :: '[' :: (ty ++ ']' :: ' ' :: c)))) := by
  have hts' : '\n' ∉ ts := fun hh => (hts.2 _ hh).2 rfl
  have hsid' : '\n' ∉ sid := fun hh => (hsid.2 _ hh).2 rfl
  have hty' : '\n' ∉ ty := fun hh => (hty.2 _ hh).2 rfl
  simp [hts', hsid', hty', hcnl]

/-- The single-line two-bracket form of `to_log_line` has no newline. -/
theorem single2_no_nl (ts sid c : Str)
    (hts : GroupOK ts) (hsid : GroupOK sid) (hcnl : '\n' ∉ c) :
    '\n' ∉ ('[' :: (ts ++ ']' :: ' ' :: '[' :: (sid ++ ']' :: ' ' :: c))) := by
  have hts' : '\n' ∉ ts := fun hh => (hts.2 _ hh).2 rfl
  have hsid' : '\n' ∉ sid := fun hh => (hsid.2 _ hh).2 rfl
  simp [hts', hsid', hcnl]

/-- Parsing a three-bracket single-line record (`msg_type ≠ MSG`). -/
theorem parseLogBlock_single3 (ts sid ty c : Str)
    (hts : GroupOK ts) (hsid : GroupOK sid) (hty : GroupOK ty)
    (hcne : c ≠ []) (hcnl : '\n' ∉ c) :
    parseLogBlock ('[' :: ts ++ "] [".data ++ sid ++ "] [".data ++ ty ++ "] ".data ++ c) =
      some ⟨1, sid, ty, (extractRecipient c).1, ts, (extractRecipient c).2⟩ := by
  have hshape : ('[' :: ts ++ "] [".data ++ sid ++ "] [".data ++ ty ++ "] ".data ++ c : Str)
      = '[' :: (ts ++ ']' :: ' ' :: '[' :: (sid ++ ']' :: ' ' :: '[' :: (ty ++ ']' :: ' ' :: c))) := by
    simp [List.append_assoc]
  rw [hshape]
  rw [parseLogBlock, splitNL_no_nl _ (single3_no_nl ts sid ty c hts hsid hty hcnl)]
  exact parseLine_single3 ts sid ty c hts hsid hty hcne hcnl 1 []

/-- Parsing a two-bracket single-line record (`msg_type = MSG`). -/
theorem parseLogBlock_single2 (ts sid c : Str)
    (hts : GroupOK ts) (hsid : GroupOK sid)
    (hcne : c ≠ []) (hcnl : '\n' ∉ c) (hc0 : c.head? ≠ some '[') :
    parseLogBlock ('[' :: ts ++ "] [".data ++ sid ++ "] ".data ++ c) =
      some ⟨1, sid, "MSG".data, (extractRecipient c).1, ts, (extractRecipient c).2⟩ := by
  have hshape : ('[' :: ts ++ "] [".data ++ sid ++ "] ".data ++ c : Str)
      = '[' :: (ts ++ ']' :: ' ' :: '[' :: (sid ++ ']' :: ' ' :: c)) := by
    simp [List.append_assoc]
  rw [hshape]
  rw [parseLogBlock, splitNL_no_nl _ (single2_no_nl ts sid c hts hsid hcnl)]
  exact parseLine_single2 ts sid c hts hsid hcne hcnl hc0 1 []

/-- Parsing a multi-line delimited block. -/
theorem parseLogBlock_multi (ts sid ty c : Str)
    (hts : GroupOK ts) (hsid : GroupOK sid) (hty : GroupOK ty)
    (hsent : ∀ l ∈ splitNL c, l ≠ "<<<END>>>".data) :
    parseLogBlock ("<<<[".data ++ ts ++ "][".data ++ sid ++ "][".data ++ ty
      ++ "]>>>".data ++ '\n' :: c ++ '\n' :: "<<<END>>>".data) =
      some ⟨1, sid, ty, (extractRecipient c).1, ts, (extractRecipient c).2⟩ := by
  have hshape : ("<<<[".data ++ ts ++ "][".data ++ sid ++ "][".data ++ ty
      ++ "]>>>".data ++ '\n' :: c ++ '\n' :: "<<<END>>>".data : Str)
      = ("<<<[".data ++ (ts ++ ']' :: '[' :: (sid ++ ']' :: '[' :: (ty ++ ']' :: ">>>".data))))
        ++ '\n' :: (c ++ '\n' :: "<<<END>>>".data) := by
    simp [List.append_assoc]
  rw [hshape]
  have hts' : '\n' ∉ ts := fun hh => (hts.2 _ hh).2 rfl
  have hsid' : '\n' ∉ sid := fun hh => (hsid.2 _ hh).2 rfl
  have hty' : '\n' ∉ ty := fun hh => (hty.2 _ hh).2 rfl
  have hhnl : '\n' ∉ ("<<<[".data ++ (ts ++ ']' :: '[' ::
      (sid ++ ']' :: '[' :: (ty ++ ']' :: ">>>".data)))) := by
    simp [hts', hsid', hty']
  rw [parseLogBlock, splitNL_append, splitNL_no_nl _ hhnl, splitNL_append,
      splitNL_no_nl ("<<<END>>>".data) (by decide)]
  simp only [List.singleton_append, List.append_eq]
  have hp1 := isPrefixOf_append_self "<<<[".data
    (ts ++ ']' :: '[' :: (sid ++ ']' :: '[' :: (ty ++ ']' :: ">>>".data)))
  have hp2 := parseMultiHeader_eval ts sid ty hts hsid hty
  have hp3 := takeWhile_all_stop (fun x => decide (x ≠ "<<<END>>>".data))
    (splitNL c) ("<<<END>>>".data) []
    (fun x hx => by simpa using hsent x hx) (by simp)
  simp only [parseLine, hp1, if_true, hp2, hp3, List.append_nil, joinNL_splitNL]


/-! ## Well-formedness: sufficient conditions for a lossless round trip -/

/-- Condition on the recipient field: a set recipient must be a nonempty
string of mention-grammar characters; with no recipient, the content must not
itself begin with an extractable `@token ` mention (or it would be
re-extracted on parse). -/
def recipCond : Option Str → Str → Prop
  | some r, _ => r ≠ [] ∧ ∀ c ∈ r, isMentionChar c = true
  | none, content => (extractRecipient content).2 = none

instance : (r : Option Str) → (c : Str) → Decidable (recipCond r c)
  | some _, _ => by unfold recipCond; infer_instance
  | none, _ => by unfold recipCond; infer_instance

/-- Sufficient conditions under which `to_log_line` round-trips through
`_parse_line`: bracketed fields are nonempty and free of `']'`/newline, the
content is nonempty and does not begin with whitespace, the recipient
satisfies `recipCond`, a single-line `MSG` record with no recipient must not
have content starting with `'['` (which the three-bracket pattern would
capture), and no content line may equal the `<<<END>>>` sentinel. -/
def WellFormedMsg (m : Msg) : Prop :=
  GroupOK m.timestamp ∧ GroupOK m.sessionId ∧ GroupOK m.msgType ∧
  m.content ≠ [] ∧
  (∀ x, m.content.head? = some x → isSpaceChar x = false) ∧
  recipCond m.recipient m.content ∧
  (m.recipient = none → m.msgType = "MSG".data → '\n' ∉ m.content →
    m.content.head? ≠ some '[') ∧
  (∀ l ∈ splitNL m.content, l ≠ "<<<END>>>".data)

instance (m : Msg) : Decidable (WellFormedMsg m) := by
  unfold WellFormedMsg; infer_instance


/-- The round trip: under `WellFormedMsg`, parsing the formatted log line
recovers sender, type, content, timestamp, and recipient exactly (the id
becomes the line number, here 1; the room is not encoded). -/
theorem roundTrip_wellFormed (m : Msg) (h : WellFormedMsg m) :
    parseLogBlock (toLogLine m) =
      some ⟨1, m.sessionId, m.msgType, m.content, m.timestamp, m.recipient⟩ := by
  obtain ⟨hts, hsid, hty, hcne, hchd, hrec, hbr, hsent⟩ := h
  rcases m with ⟨mid, sid, ty, content, ts, rec⟩
  simp only at hts hsid hty hcne hchd hrec hbr hsent
  cases rec with
  | none =>
    have hx : (extractRecipient content).2 = none := hrec
    have hex := extractRecipient_none content hx
    simp only [toLogLine, recipTruthy, Bool.false_eq_true, if_false]
    by_cases hnl : '\n' ∈ content
    · rw [if_pos hnl]
      rw [parseLogBlock_multi ts sid ty content hts hsid hty hsent, hex]
    · rw [if_neg hnl]
      by_cases hmsg : ty = "MSG".data
      · rw [if_neg (by simpa using hmsg)]
        rw [parseLogBlock_single2 ts sid content hts hsid hcne hnl
          (hbr rfl hmsg hnl), hex, hmsg]
      · rw [if_pos (by simpa using hmsg)]
        rw [parseLogBlock_single3 ts sid ty content hts hsid hty hcne hnl, hex]
  | some r =>
    have hrne : r ≠ [] := hrec.1
    have hrc : ∀ c ∈ r, isMentionChar c = true := hrec.2
    have hrnl : '\n' ∉ r := fun hm => isMentionChar_ne_nl (hrc _ hm) rfl
    have hex : extractRecipient ('@' :: r ++ ' ' :: content) = (content, some r) :=
      extractRecipient_prefixed r content hrne hrc hchd
    simp only [toLogLine, recipTruthy, isEmpty_false_of_ne hrne, Bool.not_false,
      if_true, Option.getD_some]
    by_cases hnl : '\n' ∈ content
    · rw [if_pos (by simp [hnl])]
      have hsent' : ∀ l ∈ splitNL ('@' :: r ++ ' ' :: content),
          l ≠ "<<<END>>>".data := by
        have hsp : ('@' :: r ++ ' ' :: content : Str)
            = ('@' :: r ++ [' ']) ++ content := by simp
        rw [hsp, splitNL_append_no_nl ('@' :: r ++ [' ']) content
          (by simp [hrnl])]
        intro l hl
        rcases List.mem_cons.mp hl with hl1 | hl2
        · subst hl1
          intro hcontra
          have h2 := congrArg (fun x => x.head?) hcontra
          simp at h2
        · exact hsent l (List.mem_of_mem_tail hl2)
      rw [parseLogBlock_multi ts sid ty ('@' :: r ++ ' ' :: content)
        hts hsid hty hsent', hex]
    · have hnl' : '\n' ∉ ('@' :: r ++ ' ' :: content) := by
        simp [hrnl, hnl]
      rw [if_neg hnl']
      by_cases hmsg : ty = "MSG".data
      · rw [if_neg (by simpa using hmsg)]
        rw [parseLogBlock_single2 ts sid ('@' :: r ++ ' ' :: content) hts hsid
          (by simp) hnl' (by simp), hex, hmsg]
      · rw [if_pos (by simpa using hmsg)]
        rw [parseLogBlock_single3 ts sid ty ('@' :: r ++ ' ' :: content)
          hts hsid hty (by simp) hnl', hex]


/-! ## File storage backend (`storage/file.py`)

The log is modelled as the list of its lines.  `append_message` writes
`to_log_line() + "\n"` and sets the id to the line count of the whole file
after the write. -/

/-- `FileStorage.append_message`: returns the new line list and the assigned
id (the total line count after the append). -/
def appendMessage (lines : List Str) (m : Msg) : List Str × Nat :=
  let newLines := lines ++ splitNL (toLogLine m)
  (newLines, newLines.length)

/-- Split on `','` (Python `str.split(",")`). -/
def splitComma : Str → List Str
  | [] => [[]]
  | c :: rest =>
    if c = ',' then [] :: splitComma rest
    else
      match splitComma rest with
      | [] => [[c]]
      | l :: ls => (c :: l) :: ls

/-- Python `str.strip()`: remove leading and trailing whitespace. -/
def pyStrip (s : Str) : Str :=
  ((s.dropWhile isSpaceChar).reverse.dropWhile isSpaceChar).reverse

/-- `FileStorage._recipient_matches`: broadcast (`None` or `"*"`), exact
match, or membership in the comma-split (and stripped) recipient list. -/
def recipientMatches (msgRecipient : Option Str) (sessionId : Str) : Bool :=
  match msgRecipient with
  | none => true
  | some r =>
    if r = ['*'] then true
    else if r = sessionId then true
    else if ',' ∈ r then decide (sessionId ∈ (splitComma r).map pyStrip)
    else false

/-- Python per-character `str.upper()` (ASCII). -/
def upperStr (s : Str) : Str := s.map Char.toUpper

/-- The filter step of `FileStorage.read_messages`: skip when a type filter is
set and the type differs, else skip when a recipient filter is set and does
not match, else keep. -/
def keepMsg (tyF recF : Option Str) (m : Msg) : Bool :=
  (match tyF with | some t => m.msgType = t | none => true) &&
  (match recF with | some r => recipientMatches m.recipient r | none => true)

/-- Python truthiness of the `limit` check `if limit and len(messages) >= limit`
(`None` and `0` are falsy). -/
def limitHit : Option Nat → Nat → Bool
  | none, _ => false
  | some l, n => if l = 0 then false else decide (n ≥ l)

/-- The read loop of `FileStorage.read_messages`: walk the lines from index
`i`, parse each, apply the filters, skip over a multi-line message's body
(`i += content.count("\n") + 2`), and stop when the limit is hit (the limit
check runs at the end of every iteration).  `fuel` only drives the structural
recursion: every iteration advances `i` by at least one, so any fuel above
`lines.length` is enough and the function computes the Python loop exactly. -/
def readLoop (fuel : Nat) (lines : List Str) (tyF recF : Option Str)
    (limit : Option Nat) (i : Nat) (acc : List Msg) : List Msg :=
  match fuel with
  | 0 => acc
  | fuel + 1 =>
    match lines.get? i with
    | none => acc
    | some line =>
      let msg? := parseLine line (i + 1) (lines.drop (i + 1))
      let acc' := match msg? with
        | some msg => if keepMsg tyF recF msg then acc ++ [msg] else acc
        | none => acc
      let next := match msg? with
        | some msg =>
          if '\n' ∈ msg.content then i + msg.content.count '\n' + 2 else i + 1
        | none => i + 1
      if limitHit limit acc'.length then acc'
      else readLoop fuel lines tyF recF limit next acc'

/-- `type_filter = msg_type.upper() if msg_type else None` (an empty
`msg_type` string is falsy in Python and so means no filter). -/
def tyFilterOf : Option Str → Option Str
  | some t => if t = [] then none else some (upperStr t)
  | none => none

/-- `FileStorage.read_messages` (the `room` argument is ignored by the code). -/
def readMessages (lines : List Str) (sinceId : Nat) (limit : Option Nat)
    (msgType recipient : Option Str) : List Msg :=
  readLoop (lines.length + 1) lines (tyFilterOf msgType) recipient limit sinceId []


/-! ## Room (`rooms/base.py`)

`Room.read` works over raw log lines (`get_raw_lines`), not parsed messages:
its type filter is a substring check and its `for_me` filter a regex search
over each line.  State: the log lines, a per-session read pointer map
(pointer files; 0 when absent), and a per-session pending range map. -/

structure RoomState where
  lines : List Str
  ptrs : Str → Nat
  pending : Str → Option (Nat × Nat)

/-- Pointwise map update (a pointer-file write). -/
def setPtr (f : Str → Nat) (k : Str) (v : Nat) : Str → Nat :=
  fun x => if x = k then v else f x

/-- Python substring test `needle in hay` (contiguous infix). -/
def strContains (hay needle : Str) : Bool := decide (needle <:+: hay)

/-- The inner `while i < len and lines[i] != "<<<END>>>"` loop of
`Room.read`'s type filter: returns the collected body lines and how many
lines it consumed.  Fuel above `ls.length` is always enough. -/
def whileNotEnd (fuel : Nat) (ls : List Str) (j : Nat) : List Str × Nat :=
  match fuel with
  | 0 => ([], 0)
  | fuel + 1 =>
    match ls.get? j with
    | none => ([], 0)
    | some line =>
      if line = "<<<END>>>".data then ([], 0)
      else
        let r := whileNotEnd fuel ls (j + 1)
        (line :: r.1, r.2 + 1)

/-- The raw-line type filter of `Room.read`: keep a line if `"[TYPE]"` occurs
anywhere in it; otherwise, if it is a multi-line header whose `"][TYPE]>>>"`
occurs in it, keep the header, the body up to `<<<END>>>`, and the sentinel.
Fuel above `ls.length` is always enough (each iteration advances `i`). -/
def typeFilterLoop (fuel : Nat) (tyU : Str) (ls : List Str) (i : Nat)
    (acc : List Str) : List Str :=
  match fuel with
  | 0 => acc
  | fuel + 1 =>
    match ls.get? i with
    | none => acc
    | some line =>
      if strContains line ('[' :: tyU ++ [']']) then
        typeFilterLoop fuel tyU ls (i + 1) (acc ++ [line])
      else if "<<<[".data.isPrefixOf line &&
          strContains line (']' :: '[' :: tyU ++ "]>>>".data) then
        let r := whileNotEnd (ls.length + 1) ls (i + 1)
        let endPart := match ls.get? (i + 1 + r.2) with
          | some l => [l]
          | none => []
        typeFilterLoop fuel tyU ls (i + 1 + r.2 + 1) (acc ++ line :: r.1 ++ endPart)
      else typeFilterLoop fuel tyU ls (i + 1) acc

def typeFilterLines (tyU : Str) (ls : List Str) : List Str :=
  typeFilterLoop (ls.length + 1) tyU ls 0 []

/-- One attempt of the `for_me` regex `\] @([\w/.-]+)\s` at the current
position: literal `"] @"`, a nonempty greedy run of `[\w/.-]`, then one
whitespace character. -/
def tryForMeAt (s : Str) : Option Str :=
  match s with
  | ']' :: ' ' :: '@' :: r =>
    let tok := r.takeWhile isForMeChar
    if tok.isEmpty then none
    else
      match (r.dropWhile isForMeChar).head? with
      | some c => if isSpaceChar c then some tok else none
      | none => none
  | _ => none

/-- `re.search` of the `for_me` regex: try each position left to right. -/
def searchForMe : Str → Option Str
  | [] => none
  | c :: rest =>
    match tryForMeAt (c :: rest) with
    | some tok => some tok
    | none => searchForMe rest

/-- `Room.read`'s `for_me` keep-predicate: keep when the found mention equals
the reader or `*`; keep every line with no regex match (treated as
broadcast). -/
def forMeKeep (sid : Str) (line : Str) : Bool :=
  match searchForMe line with
  | some r => r = sid || r = ['*']
  | none => true

/-- The filtered (but not yet truncated) batch of `Room.read`: raw lines past
the cursor (or all of them when `all_messages`), the substring type filter
(an empty `msg_type` string is falsy in Python: no filter), then the `for_me`
filter. -/
def roomBatch (st : RoomState) (sid : Str) (allMessages : Bool)
    (tyF : Option Str) (forMe : Bool) : List Str :=
  let lastLine := if allMessages then 0 else st.ptrs sid
  let newLines := st.lines.drop lastLine
  let newLines := match tyF with
    | some t => if t = [] then newLines else typeFilterLines (upperStr t) newLines
    | none => newLines
  if forMe then newLines.filter (forMeKeep sid) else newLines

structure ReadResult where
  messages : List Str
  newCount : Nat
  total : Nat
  deriving Repr, DecidableEq

/-- `Room.read`: build the batch, truncate to `limit` (Python truthiness: a
`None` or `0` limit means no truncation; `[:limit]` keeps the first = oldest
entries), always move the cursor to the current line count, and return `None`
exactly when `quiet` is set and the batch is empty. -/
def roomRead (st : RoomState) (sid : Str) (allMessages quiet : Bool)
    (limit : Option Nat) (tyF : Option Str) (forMe : Bool) :
    RoomState × Option ReadResult :=
  let total := st.lines.length
  let batch := roomBatch st sid allMessages tyF forMe
  let newLines := match limit with
    | some l => if l ≠ 0 ∧ batch.length > l then batch.take l else batch
    | none => batch
  let st' := { st with ptrs := setPtr st.ptrs sid total }
  if quiet ∧ newLines.length = 0 then (st', none)
  else (st', some ⟨newLines, newLines.length, total⟩)

/-- `Room.send`: append the message (timestamp threaded in for the wall
clock); the receipt echoes the message with its assigned id.  No content
validation happens here. -/
def roomSend (st : RoomState) (sid content ty : Str) (recipient : Option Str)
    (ts : Str) : RoomState × Msg :=
  let m : Msg := ⟨0, sid, ty, content, ts, recipient⟩
  let r := appendMessage st.lines m
  ({ st with lines := r.1 }, { m with id := r.2 })

/-- `Room.pending`: consume the pending marker — return `lines[start:end]`,
delete the marker, and set the cursor to `end` (unconditionally). -/
def roomPending (st : RoomState) (sid : Str) :
    RoomState × (Bool × List Str) :=
  match st.pending sid with
  | none => (st, (false, []))
  | some se =>
    let msgs := (st.lines.drop se.1).take (se.2 - se.1)
    let st' := { st with
      pending := fun x => if x = sid then none else st.pending x,
      ptrs := setPtr st.ptrs sid se.2 }
    (st', (true, msgs))

/-- `Room.check`: pending first, then an incremental read; with `for_me`, the
pending raw lines are filtered by the substring heuristic
`"@sid" in line or not line.startswith("@")`. -/
def roomCheck (st : RoomState) (sid : Str) (forMe : Bool) :
    RoomState × (List Str × Option ReadResult) :=
  let p := roomPending st sid
  let r := roomRead p.1 sid false false none none forMe
  let pmsgs := if forMe then
      p.2.2.filter (fun msg =>
        strContains msg ('@' :: sid) || !("@".data.isPrefixOf msg))
    else p.2.2
  (r.1, (pmsgs, r.2))

/-- `set_pending_range` (written by the listen daemon). -/
def setPendingRange (st : RoomState) (sid : Str) (a b : Nat) : RoomState :=
  { st with pending := fun x => if x = sid then some (a, b) else st.pending x }

/-- The room operations a trace may perform. -/
inductive ROp where
  | send (sid content ty : Str) (recipient : Option Str) (ts : Str)
  | read (sid : Str) (allMessages quiet : Bool) (limit : Option Nat)
      (tyF : Option Str) (forMe : Bool)
  | pendingOp (sid : Str)
  | checkOp (sid : Str) (forMe : Bool)
  | setPending (sid : Str) (a b : Nat)

def applyOp (st : RoomState) : ROp → RoomState
  | .send sid c ty r ts => (roomSend st sid c ty r ts).1
  | .read sid a q l t f => (roomRead st sid a q l t f).1
  | .pendingOp sid => (roomPending st sid).1
  | .checkOp sid f => (roomCheck st sid f).1
  | .setPending sid a b => setPendingRange st sid a b

def applyOps (st : RoomState) (ops : List ROp) : RoomState :=
  ops.foldl applyOp st

/-- The empty room: no lines, all cursors 0, no pending markers. -/
def initRoom : RoomState := ⟨[], fun _ => 0, fun _ => none⟩


/-! ## SQLite storage (`storage/sqlite.py`)

One shared database for all rooms: a `messages` table scoped by a `room`
column, `read_pointers` keyed on (session, room), and a `pending` table keyed
on session only (no room column). -/

structure SRow where
  id : Nat
  room : Str
  sessionId : Str
  msgType : Str
  content : Str
  timestamp : Str
  recipient : Option Str
  deriving Repr, DecidableEq

structure SDb where
  messages : List SRow
  pointers : List (Str × Str × Nat)
  pending : List (Str × Nat × Nat)
  deriving Repr, DecidableEq

/-- `SQLiteStorage.clear`: `DELETE FROM messages WHERE room = ?`,
`DELETE FROM read_pointers WHERE room = ?`, and an unscoped
`DELETE FROM pending`. -/
def sqliteClear (db : SDb) (room : Str) : SDb :=
  { messages := db.messages.filter (fun r => r.room ≠ room),
    pointers := db.pointers.filter (fun p => p.2.1 ≠ room),
    pending := [] }

/-- The recipient clause of `SQLiteStorage.read_messages` for messages of the
requested room past `since_id`; SQL `LIKE` on ASCII letters is
case-insensitive, so the comma-list membership test
`(',' || recipient || ',') LIKE '%,R,%'` is modelled as a case-folded infix
test (for a pattern without wildcard characters). -/
def sqliteRecipientClause (msgRecipient : Option Str) (r : Str) : Bool :=
  match msgRecipient with
  | none => true
  | some mr =>
    mr = ['*'] || mr = r ||
      strContains (upperStr (',' :: mr ++ [','])) (upperStr (',' :: r ++ [',']))

/-- The `WHERE` filter of `SQLiteStorage.read_messages` (ascending id order is
kept as list order). -/
def sqliteReadMessages (db : SDb) (room : Str) (sinceId : Nat)
    (msgType recipient : Option Str) : List SRow :=
  db.messages.filter (fun row =>
    row.room = room && row.id > sinceId &&
    (match msgType with | some t => row.msgType = upperStr t | none => true) &&
    (match recipient with | some r => sqliteRecipientClause row.recipient r
                          | none => true))

/-! ## Hub routing (`scripts/hub.py`)

The registry is `clients : session_id -> socket` plus
`sockets : socket -> session_id-or-None` (None while registration is
pending).  Routing computes, from the registry and a message body, the set of
sockets the full message is sent to and the confirmation sent back. -/

/-- `re.findall(r'@([\w-]+)', body)`: left-to-right non-overlapping matches
of `@` followed by a nonempty run of word characters or `-`.  Each step
consumes at least one character, so fuel above `body.length` is enough. -/
def hubMentionsAux (fuel : Nat) (body : Str) : List Str :=
  match fuel with
  | 0 => []
  | fuel + 1 =>
    match body with
    | [] => []
    | c :: rest =>
      if c = '@' then
        let tok := rest.takeWhile isHubMentionChar
        if tok.isEmpty then hubMentionsAux fuel rest
        else tok :: hubMentionsAux fuel (rest.dropWhile isHubMentionChar)
      else hubMentionsAux fuel rest

def hubMentions (body : Str) : List Str :=
  hubMentionsAux (body.length + 1) body

/-- `set(re.findall(...))`: the deduplicated mention list. -/
def mentionSet (body : Str) : List Str := (hubMentions body).dedup

/-- Python `dict` lookup over the registry association list. -/
def lookupClient (clients : List (Str × Nat)) (sid : Str) : Option Nat :=
  match clients with
  | [] => none
  | p :: rest => if p.1 = sid then some p.2 else lookupClient rest sid

/-- The sockets `_route_message` delivers the full message to: each mentioned
registered client when there is any mention, otherwise every registered
client whose socket is not the sender's. -/
def routeDeliveries (clients : List (Str × Nat)) (senderSock : Nat)
    (body : Str) : List Nat :=
  let mentions := mentionSet body
  if mentions ≠ [] then mentions.filterMap (fun m => lookupClient clients m)
  else clients.filterMap (fun p => if p.2 ≠ senderSock then some p.2 else none)

/-- The `SENT` confirmation `_route_message` sends back to the sender. -/
inductive HubReply where
  | sent (routedTo : List Str)
  | broadcast
  deriving Repr, DecidableEq

def routeReply (clients : List (Str × Nat)) (body : Str) : HubReply :=
  let mentions := mentionSet body
  if mentions ≠ [] then
    .sent (mentions.filter (fun m => (lookupClient clients m).isSome))
  else .broadcast

/-- `self.sockets.get(sender_sock, "unknown")`: the registry stores `None`
for a connection that has not yet sent REGISTER; the `"unknown"` default only
applies to a socket absent from the map entirely. -/
def senderIdOf (sockets : List (Nat × Option Str)) (sock : Nat) : Option Str :=
  match sockets with
  | [] => some "unknown".data
  | p :: rest => if p.1 = sock then p.2 else senderIdOf rest sock

/-- The routable message types of `_process_message`. -/
def routableType (ty : Str) : Bool :=
  ty = "MSG".data || ty = "TASK".data || ty = "REPLY".data ||
  ty = "STATUS".data || ty = "ERROR".data || ty = "URGENT".data

/-! ## The CLI send command (`commands/send.py`)

`cmd_send` rejects an empty message before anything touches storage; the
non-empty path extracts a leading `@mention` (same regex as
`_extract_recipient`) and delegates the append (in the source, via the
external `aqua` bridge with alias resolution; here, to the room's append —
only the empty-message path matters to the claims). -/

inductive SendOutcome where
  | error (msg : Str)
  | ok (receipt : Msg)
  deriving Repr, DecidableEq

def cmdSend (st : RoomState) (sid message ty : Str) (ts : Str) :
    RoomState × SendOutcome :=
  if message = [] then (st, .error "No message provided".data)
  else
    let er := extractRecipient message
    let r := roomSend st sid er.1 ty er.2 ts
    (r.1, .ok r.2)


/-! ## Helper lemmas for the claim theorems -/

theorem typeFilterLines_nil (tyU : Str) : typeFilterLines tyU [] = [] := by
  rw [typeFilterLines, typeFilterLoop]
  simp

theorem roomRead_ptr (st : RoomState) (sid : Str) (a q : Bool)
    (l : Option Nat) (t : Option Str) (f : Bool) :
    (roomRead st sid a q l t f).1.ptrs sid = st.lines.length := by
  simp only [roomRead]
  split <;> simp [setPtr]

theorem roomRead_lines (st : RoomState) (sid : Str) (a q : Bool)
    (l : Option Nat) (t : Option Str) (f : Bool) :
    (roomRead st sid a q l t f).1.lines = st.lines := by
  simp only [roomRead]
  split <;> rfl

theorem roomBatch_after_read (st : RoomState) (sid : Str)
    (a1 q1 : Bool) (l1 : Option Nat) (t1 : Option Str) (f1 : Bool)
    (t2 : Option Str) (f2 : Bool) :
    roomBatch (roomRead st sid a1 q1 l1 t1 f1).1 sid false t2 f2 = [] := by
  simp only [roomBatch, Bool.false_eq_true, if_false,
    roomRead_ptr, roomRead_lines, List.drop_length]
  cases t2 with
  | none => cases f2 <;> simp
  | some t =>
    by_cases ht : t = []
    · cases f2 <;> simp [ht]
    · cases f2 <;> simp [ht, typeFilterLines_nil]

/-! ## Claim theorems -/


/-- C1 counterexample: for the message ⟨sender "s", type MSG, content "hi",
timestamp "T", recipient "*"⟩ the parse of the formatted line does not recover
the content (the `@* ` prefix stays in the content, since `*` does not match
the mention grammar) nor the recipient; and `_extract_recipient` does
re-extract the reserved token `all` as a recipient, contrary to the claim. -/
theorem c1_roundtrip_counterexample :
    parseLogBlock (toLogLine ⟨0, "s".data, "MSG".data, "hi".data, "T".data,
        some "*".data⟩) =
      some ⟨1, "s".data, "MSG".data, "@* hi".data, "T".data, none⟩
    ∧ (extractRecipient "@all hi".data).2 = some "all".data := by
  constructor
  · decide
  · decide

/-- C1 (amended): the log-line encoding round-trips — parsing the formatted
line recovers sender, type, content, timestamp and recipient exactly (id/room
excepted) — for every well-formed message: bracket fields nonempty and free
of `']'`/newline, content nonempty and not starting with whitespace, no
content line equal to `<<<END>>>`, a set recipient nonempty and within the
mention grammar (with no reservation of `all`: the parser extracts it like
any token, and `*` cannot be re-extracted at all), content not starting with
an extractable `@token ` when no recipient is set, and a single-line `MSG`
record's content not starting with `'['`. -/
theorem c1_logline_roundtrip (m : Msg) (h : WellFormedMsg m) :
    parseLogBlock (toLogLine m) =
      some ⟨1, m.sessionId, m.msgType, m.content, m.timestamp, m.recipient⟩ :=
  roundTrip_wellFormed m h

/-- C1 witness: the round trip at a concrete multi-line targeted message. -/
theorem c1_logline_roundtrip_witness :
    parseLogBlock (toLogLine ⟨0, "alice".data, "TASK".data, "l1\nl2".data,
        "2024-01-01T00:00:00".data, some "bob".data⟩) =
      some ⟨1, "alice".data, "TASK".data, "l1\nl2".data,
        "2024-01-01T00:00:00".data, some "bob".data⟩ :=
  c1_logline_roundtrip _ (by decide)

/-- C3: `Room.read` always sets the reader's cursor to the room's current
line count, whatever the filters and limit; a second incremental read with no
intervening send returns an empty batch (so filtered-out lines are never
replayed). -/
theorem c3_read_advances_cursor (st : RoomState) (sid : Str)
    (a1 q1 : Bool) (l1 : Option Nat) (t1 : Option Str) (f1 : Bool)
    (l2 : Option Nat) (t2 : Option Str) (f2 : Bool) :
    (roomRead st sid a1 q1 l1 t1 f1).1.ptrs sid = st.lines.length
    ∧ (roomRead (roomRead st sid a1 q1 l1 t1 f1).1 sid false false l2 t2 f2).2 =
        some ⟨[], 0, st.lines.length⟩ := by
  refine ⟨roomRead_ptr st sid a1 q1 l1 t1 f1, ?_⟩
  have hb := roomBatch_after_read st sid a1 q1 l1 t1 f1 t2 f2
  have hgen : ∀ (st2 : RoomState), roomBatch st2 sid false t2 f2 = [] →
      (roomRead st2 sid false false l2 t2 f2).2 = some ⟨[], 0, st2.lines.length⟩ := by
    intro st2 hb2
    simp only [roomRead, hb2]
    cases l2 <;> simp
  rw [hgen _ hb, roomRead_lines]


/-- C5 counterexample: with two messages in the log, `read(all=true, limit=1)`
returns the oldest line, not the most recent one, so "truncation keeps the
most recent N" fails for `all=true`. -/
theorem c5_limit_counterexample :
    (roomRead (roomSend (roomSend initRoom "a".data "m1".data "MSG".data
          none "T".data).1 "a".data "m2".data "MSG".data none "T".data).1
        "r".data true false (some 1) none false).2 =
      some ⟨["[T] [a] m1".data], 1, 2⟩
    ∧ ("[T] [a] m1".data : Str) ≠ "[T] [a] m2".data := by
  constructor
  · decide
  · decide

/-- C5 (amended): `Room.read` with a nonzero limit truncates to the *oldest*
N lines of the filtered batch in both modes — `new_lines[:limit]` runs the
same in `all=true` and incremental reads. -/
theorem c5_limit_keeps_oldest (st : RoomState) (sid : Str) (allM : Bool)
    (tyF : Option Str) (forMe : Bool) (l : Nat) (hl : 0 < l) :
    (roomRead st sid allM false (some l) tyF forMe).2 =
      some ⟨(roomBatch st sid allM tyF forMe).take l,
        ((roomBatch st sid allM tyF forMe).take l).length,
        st.lines.length⟩ := by
  have htr : (if l ≠ 0 ∧ (roomBatch st sid allM tyF forMe).length > l
      then (roomBatch st sid allM tyF forMe).take l
      else roomBatch st sid allM tyF forMe)
      = (roomBatch st sid allM tyF forMe).take l := by
    split
    · rfl
    · rename_i hcond
      push_neg at hcond
      exact (List.take_of_length_le (hcond (by omega))).symm
  simp only [roomRead, htr]
  simp

/-- C5 witness: the amended truncation rule at a concrete state. -/
theorem c5_limit_keeps_oldest_witness :
    (roomRead initRoom "r".data true false (some 1) none false).2 =
      some ⟨(roomBatch initRoom "r".data true none false).take 1,
        ((roomBatch initRoom "r".data true none false).take 1).length,
        initRoom.lines.length⟩ :=
  c5_limit_keeps_oldest initRoom "r".data true none false 1 (by decide)

theorem filter_filter_of_imp {α : Type*} (p q : α → Bool) (l : List α)
    (h : ∀ a, q a = true → p a = true) :
    (l.filter p).filter q = l.filter q := by
  induction l with
  | nil => rfl
  | cons a t ih =>
    cases hp : p a with
    | true => simp [List.filter_cons, hp, ih]
    | false =>
      have hq : q a = false := by
        cases hqa : q a with
        | true => rw [h a hqa] at hp; exact absurd hp (by simp)
        | false => rfl
      simp [List.filter_cons, hp, hq, ih]

/-- C7 counterexample: clearing room `X` in the shared SQLite store deletes
the pending marker of a session whose data belongs to room `Y` — the
unscoped `DELETE FROM pending` empties the whole pending table. -/
theorem c7_clear_counterexample :
    (sqliteClear ⟨[⟨1, "Y".data, "s".data, "MSG".data, "hi".data, "T".data, none⟩],
        [("s".data, "Y".data, 1)], [("s".data, 1, 2)]⟩ "X".data).pending = []
    ∧ ([("s".data, 1, 2)] : List (Str × Nat × Nat)) ≠ [] := by
  constructor
  · rfl
  · decide

/-- C7 (amended): `SQLiteStorage.clear(X)` removes exactly room X's messages
and cursors — any other room Y's rows are untouched — but it deletes *all*
pending markers in the shared store (the pending table has no room column). -/
theorem c7_clear_isolation (db : SDb) (x y : Str) (hxy : y ≠ x) :
    (sqliteClear db x).messages.filter (fun r => r.room = y) =
        db.messages.filter (fun r => r.room = y)
    ∧ (sqliteClear db x).pointers.filter (fun p => p.2.1 = y) =
        db.pointers.filter (fun p => p.2.1 = y)
    ∧ (sqliteClear db x).pending = [] := by
  refine ⟨?_, ?_, rfl⟩
  · exact filter_filter_of_imp _ _ db.messages (fun a ha => by
      simp only [decide_eq_true_eq] at ha ⊢
      rw [ha]
      exact hxy)
  · exact filter_filter_of_imp _ _ db.pointers (fun a ha => by
      simp only [decide_eq_true_eq] at ha ⊢
      rw [ha]
      exact hxy)

/-- C7 witness: clear isolation at a concrete two-room database. -/
theorem c7_clear_isolation_witness :
    (sqliteClear ⟨[⟨1, "Y".data, "s".data, "MSG".data, "hi".data, "T".data, none⟩],
        [("s".data, "Y".data, 1)], []⟩ "X".data).messages.filter
          (fun r => r.room = "Y".data) =
        ([⟨1, "Y".data, "s".data, "MSG".data, "hi".data, "T".data, none⟩] :
          List SRow).filter (fun r => r.room = "Y".data)
    ∧ (sqliteClear ⟨[⟨1, "Y".data, "s".data, "MSG".data, "hi".data, "T".data, none⟩],
        [("s".data, "Y".data, 1)], []⟩ "X".data).pointers.filter
          (fun p => p.2.1 = "Y".data) =
        ([("s".data, "Y".data, 1)] : List (Str × Str × Nat)).filter
          (fun p => p.2.1 = "Y".data)
    ∧ (sqliteClear ⟨[⟨1, "Y".data, "s".data, "MSG".data, "hi".data, "T".data, none⟩],
        [("s".data, "Y".data, 1)], []⟩ "X".data).pending = [] :=
  c7_clear_isolation _ "X".data "Y".data (by decide)

/-- C9 counterexample: `Room.send` with empty content performs no validation:
it appends a (contentless) log line and returns a normal receipt, mutating
storage. -/
theorem c9_empty_send_counterexample :
    (roomSend initRoom "s".data [] "MSG".data none "T".data).1.lines =
      ["[T] [s] ".data]
    ∧ (roomSend initRoom "s".data [] "MSG".data none "T".data).2 =
      ⟨1, "s".data, "MSG".data, [], "T".data, none⟩ := by
  constructor
  · decide
  · decide

/-- C9 (amended): the empty-message rejection lives in the CLI layer:
`cmd_send` with an empty message returns the structured error dict and leaves
the room state untouched (nothing is appended); `Room.send` itself does not
validate. -/
theorem c9_cmd_send_empty (st : RoomState) (sid ty ts : Str) :
    cmdSend st sid [] ty ts = (st, .error "No message provided".data) := by
  simp [cmdSend]


/-- C8 counterexample: processing a routable message from a connection that
never sent REGISTER (its registry entry is `None`), the hub broadcasts it to
the registered client rather than dropping it. -/
theorem c8_unregistered_counterexample :
    senderIdOf [(0, none)] 0 = none
    ∧ routeDeliveries [("B".data, 1)] 0 "hello".data = [1]
    ∧ routableType "MSG".data = true := by
  refine ⟨rfl, ?_, by decide⟩
  decide

/-- C8 (amended): a routable message sent before REGISTER is not dropped: the
sender resolves to `None` and the message is still routed — with no mentions
it is broadcast to every registered client (the sender's socket, being
unregistered, is never excluded); the connection is not crashed (routing is
total and the registry is not modified). -/
theorem c8_unregistered_still_routed (clients : List (Str × Nat))
    (senderSock : Nat) (body : Str)
    (hns : ∀ p ∈ clients, p.2 ≠ senderSock) (hm : mentionSet body = []) :
    routeDeliveries clients senderSock body = clients.map Prod.snd := by
  simp only [routeDeliveries, hm]
  rw [if_neg (by simp)]
  induction clients with
  | nil => rfl
  | cons p t ih =>
    have hp := hns p (by simp)
    simp only [List.filterMap_cons, List.map_cons]
    rw [if_pos (by simpa using hp)]
    rw [ih (fun q hq => hns q (by simp [hq]))]

/-- C8 witness: the broadcast-anyway behavior at a concrete registry. -/
theorem c8_unregistered_still_routed_witness :
    routeDeliveries [("B".data, 1)] 0 "hello".data =
      ([("B".data, 1)] : List (Str × Nat)).map Prod.snd :=
  c8_unregistered_still_routed [("B".data, 1)] 0 "hello".data
    (by decide) (by decide)

/-- Which room operations the amended cursor-monotonicity covers. -/
def isSendRead : ROp → Bool
  | .send _ _ _ _ _ => true
  | .read _ _ _ _ _ _ => true
  | _ => false

theorem roomRead_ptrs (st : RoomState) (sid : Str) (a q : Bool)
    (l : Option Nat) (t : Option Str) (f : Bool) :
    (roomRead st sid a q l t f).1.ptrs = setPtr st.ptrs sid st.lines.length := by
  simp only [roomRead]
  split <;> rfl

/-- One send or read step never lowers any cursor and keeps every cursor
within the line count. -/
theorem sendRead_step (st : RoomState) (op : ROp) (hop : isSendRead op = true)
    (hinv : ∀ s, st.ptrs s ≤ st.lines.length) :
    (∀ s, st.ptrs s ≤ (applyOp st op).ptrs s)
    ∧ (∀ s, (applyOp st op).ptrs s ≤ (applyOp st op).lines.length) := by
  cases op with
  | send sid c ty r ts =>
    constructor
    · intro s
      simp [applyOp, roomSend]
    · intro s
      simp only [applyOp, roomSend, appendMessage]
      exact le_trans (hinv s) (by simp)
  | read sid a q l t f =>
    constructor
    · intro s
      simp only [applyOp, roomRead_ptrs, setPtr]
      split
      · rename_i hse
        rw [hse]
        exact hinv sid
      · exact le_refl _
    · intro s
      simp only [applyOp, roomRead_ptrs, roomRead_lines, setPtr]
      split
      · exact le_refl _
      · exact hinv s
  | pendingOp sid => exact absurd hop (by simp [isSendRead])
  | checkOp sid f => exact absurd hop (by simp [isSendRead])
  | setPending sid a b => exact absurd hop (by simp [isSendRead])

/-- C4 counterexample: after two sends, a daemon-written pending marker
`(0,1)` and a read (cursor = 2), consuming the pending marker sets the
reader's cursor back to 1 — the pending operation violates monotonicity. -/
theorem c4_cursor_counterexample :
    ((applyOps initRoom [ROp.send "a".data "m1".data "MSG".data none "T".data,
        ROp.send "a".data "m2".data "MSG".data none "T".data,
        ROp.setPending "r".data 0 1,
        ROp.read "r".data false false none none false]).ptrs "r".data = 2)
    ∧ ((applyOps initRoom [ROp.send "a".data "m1".data "MSG".data none "T".data,
        ROp.send "a".data "m2".data "MSG".data none "T".data,
        ROp.setPending "r".data 0 1,
        ROp.read "r".data false false none none false,
        ROp.pendingOp "r".data]).ptrs "r".data = 1) := by
  constructor
  · decide
  · decide

/-- C4 (amended): over traces of send and read operations alone the cursor of
every (reader, room) pair is monotonically non-decreasing (send never touches
cursors and read sets them to the never-shrinking line count); the pending
operation, by contrast, can lower a cursor to a stale marker's end (see the
counterexample). -/
theorem c4_cursor_monotone_send_read (ops : List ROp)
    (hops : ∀ op ∈ ops, isSendRead op = true) :
    ∀ st : RoomState, (∀ s, st.ptrs s ≤ st.lines.length) →
      ∀ sid, st.ptrs sid ≤ (applyOps st ops).ptrs sid := by
  induction ops with
  | nil =>
    intro st _ sid
    simp [applyOps]
  | cons op t ih =>
    intro st hinv sid
    have hstep := sendRead_step st op (hops op (by simp)) hinv
    have happ : applyOps st (op :: t) = applyOps (applyOp st op) t := rfl
    rw [happ]
    exact le_trans (hstep.1 sid)
      (ih (fun o ho => hops o (by simp [ho])) (applyOp st op) hstep.2 sid)

/-- C4 witness: monotonicity of a concrete send-then-read trace from the
empty room. -/
theorem c4_cursor_monotone_witness :
    initRoom.ptrs "r".data ≤
      (applyOps initRoom [ROp.send "a".data "m1".data "MSG".data none "T".data,
        ROp.read "r".data false false none none false]).ptrs "r".data :=
  c4_cursor_monotone_send_read _ (by decide) initRoom
    (fun _ => Nat.le_refl 0) "r".data


theorem lookupClient_mem (clients : List (Str × Nat)) (m : Str) (sock : Nat)
    (h : lookupClient clients m = some sock) : (m, sock) ∈ clients := by
  induction clients with
  | nil => simp [lookupClient] at h
  | cons p t ih =>
    simp only [lookupClient] at h
    split at h
    · rename_i hpm
      simp only [Option.some.injEq] at h
      exact List.mem_cons.mpr (Or.inl (by cases p; simp_all))
    · exact List.mem_cons.mpr (Or.inr (ih h))

theorem mem_lookupClient (clients : List (Str × Nat))
    (hkeys : (clients.map Prod.fst).Nodup) (m : Str) (sock : Nat)
    (h : (m, sock) ∈ clients) : lookupClient clients m = some sock := by
  induction clients with
  | nil => simp at h
  | cons p t ih =>
    simp only [List.map_cons, List.nodup_cons] at hkeys
    rcases List.mem_cons.mp h with h1 | h1
    · simp [lookupClient, ← h1]
    · have hm : m ∈ t.map Prod.fst := List.mem_map.mpr ⟨(m, sock), h1, rfl⟩
      have hne : ¬(p.1 = m) := fun he => hkeys.1 (he ▸ hm)
      simp [lookupClient, hne, ih hkeys.2 h1]

theorem socks_nodup_inj (clients : List (Str × Nat))
    (hsocks : (clients.map Prod.snd).Nodup) {a b : Str} {s : Nat}
    (ha : (a, s) ∈ clients) (hb : (b, s) ∈ clients) : a = b := by
  induction clients with
  | nil => simp at ha
  | cons p t ih =>
    simp only [List.map_cons, List.nodup_cons] at hsocks
    rcases List.mem_cons.mp ha with h1 | h1 <;> rcases List.mem_cons.mp hb with h2 | h2
    · have := h1.trans h2.symm
      simpa using this
    · exfalso
      exact hsocks.1 (by
        rw [← h1]
        exact List.mem_map.mpr ⟨(b, s), h2, rfl⟩)
    · exfalso
      exact hsocks.1 (by
        rw [← h2]
        exact List.mem_map.mpr ⟨(a, s), h1, rfl⟩)
    · exact ih hsocks.2 h1 h2

/-- C2: hub mention routing.  For a registry with distinct session ids and
distinct sockets: when the body has at least one `@mention`, the full message
is delivered exactly to the registered clients whose ids are mentioned (and
to nothing outside the registry), and the sender's `SENT` confirmation lists
exactly the mentioned-and-registered ids; when the body has no mention, the
message is delivered to every registered client except the sender's socket,
and the confirmation carries `broadcast`. -/
theorem c2_hub_mention_routing (clients : List (Str × Nat)) (senderSock : Nat)
    (body : Str)
    (hkeys : (clients.map Prod.fst).Nodup)
    (hsocks : (clients.map Prod.snd).Nodup) :
    (mentionSet body ≠ [] →
      (∀ sid sock, (sid, sock) ∈ clients →
        (sock ∈ routeDeliveries clients senderSock body ↔ sid ∈ mentionSet body))
      ∧ (∀ sock ∈ routeDeliveries clients senderSock body,
          ∃ sid, (sid, sock) ∈ clients ∧ sid ∈ mentionSet body)
      ∧ ∃ rt, routeReply clients body = .sent rt ∧
          (∀ m, m ∈ rt ↔ m ∈ mentionSet body ∧ ∃ sock, (m, sock) ∈ clients))
    ∧ (mentionSet body = [] →
      (∀ sid sock, (sid, sock) ∈ clients →
        (sock ∈ routeDeliveries clients senderSock body ↔ sock ≠ senderSock))
      ∧ routeReply clients body = .broadcast) := by
  constructor
  · intro hm
    refine ⟨?_, ?_, ?_⟩
    · intro sid sock hmem
      simp only [routeDeliveries, if_pos hm]
      constructor
      · intro hsock
        obtain ⟨m, hmm, hlk⟩ := List.mem_filterMap.mp hsock
        have hmc := lookupClient_mem clients m sock hlk
        have : sid = m := socks_nodup_inj clients hsocks hmem hmc
        rw [this]
        exact hmm
      · intro hsid
        exact List.mem_filterMap.mpr
          ⟨sid, hsid, mem_lookupClient clients hkeys sid sock hmem⟩
    · intro sock hsock
      simp only [routeDeliveries, if_pos hm] at hsock
      obtain ⟨m, hmm, hlk⟩ := List.mem_filterMap.mp hsock
      exact ⟨m, lookupClient_mem clients m sock hlk, hmm⟩
    · refine ⟨(mentionSet body).filter (fun m => (lookupClient clients m).isSome),
        by simp only [routeReply, if_pos hm], ?_⟩
      intro m
      rw [List.mem_filter]
      constructor
      · rintro ⟨h1, h2⟩
        obtain ⟨sock, hsk⟩ := Option.isSome_iff_exists.mp h2
        exact ⟨h1, sock, lookupClient_mem clients m sock hsk⟩
      · rintro ⟨h1, sock, h2⟩
        exact ⟨h1, by
          rw [mem_lookupClient clients hkeys m sock h2]
          rfl⟩
  · intro hm
    constructor
    · intro sid sock hmem
      simp only [routeDeliveries, hm, if_neg (by simp : ¬(([] : List Str) ≠ []))]
      constructor
      · intro hsock
        obtain ⟨p, _, hif⟩ := List.mem_filterMap.mp hsock
        by_cases hps : p.2 ≠ senderSock
        · rw [if_pos hps] at hif
          simp only [Option.some.injEq] at hif
          rw [← hif]
          exact hps
        · rw [if_neg hps] at hif
          exact absurd hif (by simp)
      · intro hsock
        exact List.mem_filterMap.mpr ⟨(sid, sock), hmem, by rw [if_pos hsock]⟩
    · simp only [routeReply, hm, if_neg (by simp : ¬(([] : List Str) ≠ []))]

/-- C2 witness: with registered clients A, B, C, the body `"@B hello"` from
A's socket is delivered to B's socket. -/
theorem c2_hub_mention_routing_witness :
    2 ∈ routeDeliveries [("A".data, 1), ("B".data, 2), ("C".data, 3)] 1
      "@B hello".data :=
  (((c2_hub_mention_routing [("A".data, 1), ("B".data, 2), ("C".data, 3)] 1
      "@B hello".data (by decide) (by decide)).1 (by decide)).1 "B".data 2
      (by decide)).mpr (by decide)


/-- Every message the file-storage read loop returns (beyond what was already
accumulated) passed the filter predicate. -/
theorem readLoop_sound (lines : List Str) (tyF recF : Option Str)
    (limit : Option Nat) :
    ∀ (fuel i : Nat) (acc : List Msg),
      (∀ m ∈ acc, keepMsg tyF recF m = true) →
      ∀ m ∈ readLoop fuel lines tyF recF limit i acc,
        keepMsg tyF recF m = true := by
  intro fuel
  induction fuel with
  | zero =>
    intro i acc hacc m hm
    rw [readLoop] at hm
    exact hacc m hm
  | succ fuel ih =>
    intro i acc hacc m hm
    rw [readLoop] at hm
    cases hg : lines.get? i with
    | none =>
      rw [hg] at hm
      exact hacc m hm
    | some line =>
      rw [hg] at hm
      simp only at hm
      have hacc' : ∀ m2 ∈ (match parseLine line (i + 1) (lines.drop (i + 1)) with
          | some msg => if keepMsg tyF recF msg then acc ++ [msg] else acc
          | none => acc), keepMsg tyF recF m2 = true := by
        cases hp : parseLine line (i + 1) (lines.drop (i + 1)) with
        | none => simpa using hacc
        | some msg =>
          simp only
          split
          · rename_i hk
            intro m2 hm2
            rcases List.mem_append.mp hm2 with h2 | h2
            · exact hacc m2 h2
            · rw [List.mem_singleton.mp h2]
              exact hk
          · exact hacc
      split at hm
      · exact hacc' m hm
      · exact ih _ _ hacc' m hm

/-- C6 counterexample: `Room.read` with `msg_type="TASK"` keeps a raw line by
the substring test `"[TASK]" in line`, so a `MSG`-typed message whose content
merely contains the text `[TASK]` is returned — the storage parse of that
same line has type `MSG`, not `TASK`.  And `Room.read(for_me)` returns a line
addressed to the comma list `a,b` to the unrelated reader `c` (its regex
cannot parse comma lists, so the line counts as broadcast), although the
storage-level recipient rule excludes `c`. -/
theorem c6_filter_counterexample :
    ((roomRead (roomSend initRoom "a".data "hello [TASK] x".data "MSG".data
          none "T".data).1
        "r".data true false none (some "TASK".data) false).2).map
        ReadResult.messages =
      some ["[T] [a] hello [TASK] x".data]
    ∧ (parseLine "[T] [a] hello [TASK] x".data 1 []).map Msg.msgType =
      some "MSG".data
    ∧ ((roomRead (roomSend initRoom "s".data "hello".data "MSG".data
          (some "a,b".data) "T".data).1
        "c".data true false none none true).2).map ReadResult.messages =
      some ["[T] [s] @a,b hello".data]
    ∧ recipientMatches (some "a,b".data) "c".data = false := by
  refine ⟨?_, ?_, ?_, ?_⟩
  · decide
  · decide
  · decide
  · decide

/-- C6 (amended): filter correctness holds at the file-storage level:
every message `read_messages` returns under a type filter has exactly that
(uppercased) type, and under a recipient filter satisfies the recipient rule
(null, `*`, exact match, or membership in the comma-split stripped list).
`Room.read`, by contrast, filters raw lines with substring/regex heuristics
that can keep lines of the wrong type (see the counterexample) and treats
unparseable mentions (e.g. comma lists) as broadcast. -/
theorem c6_storage_filter_sound (lines : List Str) (sinceId : Nat)
    (limit : Option Nat) (msgType recipient : Option Str) (m : Msg)
    (hm : m ∈ readMessages lines sinceId limit msgType recipient) :
    (∀ t, msgType = some t → t ≠ [] → m.msgType = upperStr t)
    ∧ (∀ r, recipient = some r → recipientMatches m.recipient r = true) := by
  rw [readMessages] at hm
  have hrec : ∀ r, recipient = some r →
      recipientMatches m.recipient r = true := by
    intro r hr
    subst hr
    have hk := readLoop_sound lines (tyFilterOf msgType) (some r) limit
      (lines.length + 1) sinceId [] (by simp) m hm
    rw [keepMsg.eq_def, Bool.and_eq_true] at hk
    simpa using hk.2
  refine ⟨?_, hrec⟩
  intro t ht htne
  subst ht
  rw [show tyFilterOf (some t) = some (upperStr t) by
    simp [tyFilterOf, htne]] at hm
  have hk := readLoop_sound lines (some (upperStr t)) recipient limit
    (lines.length + 1) sinceId [] (by simp) m hm
  rw [keepMsg.eq_def, Bool.and_eq_true] at hk
  simpa using hk.1

/-- C6 witness: the storage-level filter guarantee at a concrete read. -/
theorem c6_storage_filter_sound_witness :
    (∀ t, (some "msg".data : Option Str) = some t → t ≠ [] →
      (⟨1, "a".data, "MSG".data, "hi".data, "T".data, some "b".data⟩ : Msg).msgType
        = upperStr t)
    ∧ (∀ r, (some "b".data : Option Str) = some r →
      recipientMatches (⟨1, "a".data, "MSG".data, "hi".data, "T".data,
        some "b".data⟩ : Msg).recipient r = true) :=
  c6_storage_filter_sound ["[T] [a] @b hi".data] 0 none
    (some "msg".data) (some "b".data)
    ⟨1, "a".data, "MSG".data, "hi".data, "T".data, some "b".data⟩ (by decide)


/-- A well-formed single-line message's log line has no newline, and
`_parse_line` recovers it at any line number. -/
theorem parse_toLogLine_single (m : Msg) (h : WellFormedMsg m)
    (hnl : '\n' ∉ m.content) (n : Nat) (rest : List Str) :
    '\n' ∉ toLogLine m
    ∧ parseLine (toLogLine m) n rest =
        some ⟨n, m.sessionId, m.msgType, m.content, m.timestamp, m.recipient⟩ := by
  obtain ⟨hts, hsid, hty, hcne, hchd, hrec, hbr, hsent⟩ := h
  rcases m with ⟨mid, sid, ty, content, ts, rec⟩
  simp only at hts hsid hty hcne hchd hrec hbr hsent hnl ⊢
  cases rec with
  | none =>
    have hx : (extractRecipient content).2 = none := hrec
    have hex := extractRecipient_none content hx
    simp only [toLogLine, recipTruthy, Bool.false_eq_true, if_false]
    rw [if_neg hnl]
    by_cases hmsg : ty = "MSG".data
    · rw [if_neg (by simpa using hmsg)]
      have hshape : ('[' :: ts ++ "] [".data ++ sid ++ "] ".data ++ content : Str)
          = '[' :: (ts ++ ']' :: ' ' :: '[' :: (sid ++ ']' :: ' ' :: content)) := by
        simp [List.append_assoc]
      rw [hshape]
      refine ⟨single2_no_nl ts sid content hts hsid hnl, ?_⟩
      rw [parseLine_single2 ts sid content hts hsid hcne hnl
        (hbr rfl hmsg hnl) n rest, hex, hmsg]
    · rw [if_pos (by simpa using hmsg)]
      have hshape : ('[' :: ts ++ "] [".data ++ sid ++ "] [".data ++ ty
            ++ "] ".data ++ content : Str)
          = '[' :: (ts ++ ']' :: ' ' :: '[' ::
              (sid ++ ']' :: ' ' :: '[' :: (ty ++ ']' :: ' ' :: content))) := by
        simp [List.append_assoc]
      rw [hshape]
      refine ⟨single3_no_nl ts sid ty content hts hsid hty hnl, ?_⟩
      rw [parseLine_single3 ts sid ty content hts hsid hty hcne hnl n rest, hex]
  | some r =>
    have hrne : r ≠ [] := hrec.1
    have hrc : ∀ c ∈ r, isMentionChar c = true := hrec.2
    have hrnl : '\n' ∉ r := fun hm2 => isMentionChar_ne_nl (hrc _ hm2) rfl
    have hex : extractRecipient ('@' :: r ++ ' ' :: content) = (content, some r) :=
      extractRecipient_prefixed r content hrne hrc hchd
    simp only [toLogLine, recipTruthy, isEmpty_false_of_ne hrne, Bool.not_false,
      if_true, Option.getD_some]
    have hnl' : '\n' ∉ ('@' :: r ++ ' ' :: content) := by
      simp [hrnl, hnl]
    rw [if_neg hnl']
    by_cases hmsg : ty = "MSG".data
    · rw [if_neg (by simpa using hmsg)]
      have hshape : ('[' :: ts ++ "] [".data ++ sid ++ "] ".data
            ++ ('@' :: r ++ ' ' :: content) : Str)
          = '[' :: (ts ++ ']' :: ' ' :: '[' ::
              (sid ++ ']' :: ' ' :: ('@' :: r ++ ' ' :: content))) := by
        simp [List.append_assoc]
      rw [hshape]
      refine ⟨single2_no_nl ts sid ('@' :: r ++ ' ' :: content) hts hsid hnl', ?_⟩
      rw [parseLine_single2 ts sid ('@' :: r ++ ' ' :: content) hts hsid
        (by simp) hnl' (by simp) n rest, hex, hmsg]
    · rw [if_pos (by simpa using hmsg)]
      have hshape : ('[' :: ts ++ "] [".data ++ sid ++ "] [".data ++ ty
            ++ "] ".data ++ ('@' :: r ++ ' ' :: content) : Str)
          = '[' :: (ts ++ ']' :: ' ' :: '[' :: (sid ++ ']' :: ' ' :: '[' ::
              (ty ++ ']' :: ' ' :: ('@' :: r ++ ' ' :: content)))) := by
        simp [List.append_assoc]
      rw [hshape]
      refine ⟨single3_no_nl ts sid ty ('@' :: r ++ ' ' :: content)
        hts hsid hty hnl', ?_⟩
      rw [parseLine_single3 ts sid ty ('@' :: r ++ ' ' :: content)
        hts hsid hty (by simp) hnl' n rest, hex]

/-- C10 counterexample: appending a multi-line message to an empty log
returns id 4 (the line count after the 4-line block, i.e. the `<<<END>>>`
line position), while `read_messages` returns the same message under id 1
(the header line position). -/
theorem c10_id_counterexample :
    (appendMessage [] ⟨0, "a".data, "MSG".data, "x\ny".data, "T".data, none⟩).2 = 4
    ∧ (readMessages (appendMessage []
        ⟨0, "a".data, "MSG".data, "x\ny".data, "T".data, none⟩).1
        0 none none none).map Msg.id = [1] := by
  constructor
  · decide
  · decide

/-- C10 (amended): for a well-formed *single-line* message, the id assigned
by `append_message` is the message's line position (previous line count + 1,
so ids grow strictly and are unique within a room), and `read_messages` from
the previous line count returns exactly that message under the same id.  For
multi-line messages the append id is the `<<<END>>>` line position while the
read id is the header position (see the counterexample). -/
theorem c10_append_read_id_single (lines : List Str) (m : Msg)
    (h : WellFormedMsg m) (hnl : '\n' ∉ m.content) :
    (appendMessage lines m).2 = lines.length + 1
    ∧ readMessages (appendMessage lines m).1 lines.length none none none =
      [⟨lines.length + 1, m.sessionId, m.msgType, m.content, m.timestamp,
        m.recipient⟩] := by
  have hp := parse_toLogLine_single m h hnl (lines.length + 1)
    ((lines ++ [toLogLine m]).drop (lines.length + 1))
  have hsp : splitNL (toLogLine m) = [toLogLine m] := splitNL_no_nl _ hp.1
  have hap : appendMessage lines m = (lines ++ [toLogLine m], lines.length + 1) := by
    simp [appendMessage, hsp]
  rw [hap]
  refine ⟨rfl, ?_⟩
  rw [readMessages]
  have hfuel : (lines ++ [toLogLine m]).length + 1 = (lines.length + 1) + 1 := by
    simp
  rw [hfuel]
  have hget : (lines ++ [toLogLine m]).get? lines.length = some (toLogLine m) := by
    rw [List.get?_eq_getElem?]
    exact List.getElem?_concat_length lines _
  have hget2 : (lines ++ [toLogLine m])[lines.length + 1]? = none := by
    apply List.getElem?_eq_none
    simp
  simp only [readLoop, hget, hget2, hp.2, tyFilterOf, keepMsg, limitHit,
    Bool.and_self, if_true, List.nil_append, hnl]
  simp [hnl, hget2]


/-- C10 witness: id assignment and read-back at a concrete single-line
message appended to the empty log. -/
theorem c10_append_read_id_single_witness :
    (appendMessage ([] : List Str)
      ⟨0, "a".data, "MSG".data, "hi".data, "T".data, none⟩).2 =
      ([] : List Str).length + 1
    ∧ readMessages (appendMessage ([] : List Str)
        ⟨0, "a".data, "MSG".data, "hi".data, "T".data, none⟩).1
        ([] : List Str).length none none none =
      [⟨([] : List Str).length + 1, "a".data, "MSG".data, "hi".data, "T".data,
        none⟩] :=
  c10_append_read_id_single []
    ⟨0, "a".data, "MSG".data, "hi".data, "T".data, none⟩ (by decide) (by decide)

end NClaude
